import Mathlib

/-!
Verification of the shopping-cart widget (cart state machine and
order-submission pipeline).

The embedding models the JavaScript sources shallowly:

* strings are `List Char` (`Str`), JS numbers are `ℚ` (the claims only use
  exact decimal arithmetic; `NaN`/infinities do not arise on the modelled
  paths), and an absent (`undefined`) price is `Option.none`;
* DOM rendering, `console` logging and CSS toggling are ignored: they do not
  touch the cart state.  Storage, clipboard, `confirm` and `mailto`
  navigation are modelled explicitly (storage as a stored value, the rest as
  an effect trace);
* JS truthiness on a numeric price (`item.price ? … : …`) is folded into
  `jsTruthy`: a price of `0` (and an absent price) is falsy.
-/

/-- Strings are modelled as lists of characters. -/
abbrev Str := List Char

/-- Conversion from Lean string literals to the model's strings. -/
def str (s : String) : Str := s.toList

/-- A cart line item, from the JSDoc shape in `cart.js`
(`{id, name, price: number|undefined, quantity, image}`). -/
structure LineItem where
  id : Str
  name : Str
  price : Option ℚ
  quantity : ℤ
  image : Str
deriving DecidableEq, Repr

/-- A postal address, from `createDefaultCustomerInfo` in `cart.js`. -/
structure Address where
  street : Str
  city : Str
  postal : Str
  country : Str
deriving DecidableEq, Repr

/-- Customer information, from `createDefaultCustomerInfo` in `cart.js`. -/
structure CustomerInfo where
  name : Str
  email : Str
  acceptedTos : Bool
  address : Address
deriving DecidableEq, Repr

/-- `createDefaultCustomerInfo` from `cart.js`: all fields empty,
`acceptedTos` false. -/
def defaultCustomerInfo : CustomerInfo :=
  { name := [], email := [], acceptedTos := false
  , address := { street := [], city := [], postal := [], country := [] } }

/-- The order record built in `submitOrder`
(`{items, customer, total, timestamp}`). -/
structure OrderRecord where
  items : List LineItem
  customer : CustomerInfo
  total : ℚ
  timestamp : Str
deriving DecidableEq, Repr

/-- The input object received by `addItem`.  The `quantity` field may be
present on the input (the code never reads it: a spread-in quantity is
overwritten with 1 on the append path and ignored on the merge path). -/
structure ProductInput where
  id : Str
  name : Str
  price : Option ℚ
  quantity : Option ℤ
  image : Str
deriving DecidableEq, Repr

/-- JS truthiness applied to a numeric-or-absent price: `undefined` and `0`
are falsy (`item.price ? … : …` in `cart.js`). -/
def jsTruthy : Option ℚ → Option ℚ
  | none => none
  | some q => if q = 0 then none else some q

/-- Price normalisation in `addItem`:
`price: product.price ? Number(product.price) : undefined`. -/
def normPrice (p : Option ℚ) : Option ℚ := jsTruthy p

/-- The contribution of one item to the `total` getter:
`item.price ? item.price * item.quantity : 0`. -/
def itemContribution (it : LineItem) : ℚ :=
  match jsTruthy it.price with
  | some p => p * it.quantity
  | none => 0

/-- The `total` getter of `ShoppingCart`:
`items.reduce((sum, item) => sum + (item.price ? item.price*item.quantity : 0), 0)`. -/
def cartTotal (items : List LineItem) : ℚ :=
  items.foldl (fun sum it => sum + itemContribution it) 0

/-- The `count` getter of `ShoppingCart`:
`items.reduce((sum, item) => sum + item.quantity, 0)`. -/
def cartCount (items : List LineItem) : ℤ :=
  items.foldl (fun sum it => sum + it.quantity) 0

/-- The new line item pushed by `addItem` when no item with the same id
exists: the spread of the normalised product with `quantity` set to 1. -/
def newItemOf (p : ProductInput) : LineItem :=
  { id := p.id, name := p.name, price := normPrice p.price
  , quantity := 1, image := p.image }

/-- `existingItem.quantity += 1` applied to the first item whose id matches
(`this.items.find(item => item.id === normalizedProduct.id)`). -/
def incFirst (pid : Str) : List LineItem → List LineItem
  | [] => []
  | it :: rest =>
      if it.id = pid then { it with quantity := it.quantity + 1 } :: rest
      else it :: incFirst pid rest

/-- `ShoppingCart.addItem` from `cart.js` (lines 518-543), restricted to its
effect on the item list.  A missing/empty `id`, `name` or `image` aborts with
no mutation; otherwise the first item with the normalised id is incremented,
or a fresh item with quantity 1 is appended. -/
def addItem (items : List LineItem) (p : ProductInput) : List LineItem :=
  if p.id = [] ∨ p.name = [] ∨ p.image = [] then items
  else if items.any (fun it => it.id = p.id) then incFirst p.id items
  else items ++ [newItemOf p]

/-- `ShoppingCart.removeItem`:
`this.items = this.items.filter(item => item.id !== productId)`. -/
def removeItem (items : List LineItem) (pid : Str) : List LineItem :=
  items.filter (fun it => it.id ≠ pid)

/-- `item.quantity = newQty` applied to the first item whose id matches. -/
def setQtyFirst (pid : Str) (newQty : ℤ) : List LineItem → List LineItem
  | [] => []
  | it :: rest =>
      if it.id = pid then { it with quantity := newQty } :: rest
      else it :: setQtyFirst pid newQty rest

/-- `ShoppingCart.updateQuantity` from `cart.js` (lines 562-578), restricted
to its effect on the item list.  The `typeof` argument guard always passes in
the typed model.  The code first looks the item up and returns unchanged when
it is missing; otherwise `newQty = currentQty + change` is compared with 0. -/
def updateQuantity (items : List LineItem) (pid : Str) (currentQty change : ℤ) :
    List LineItem :=
  if items.any (fun it => it.id = pid) then
    if currentQty + change ≤ 0 then removeItem items pid
    else setQtyFirst pid (currentQty + change) items
  else items

/-- `ShoppingCart.clearCart`: `this.items = []`. -/
def clearCart (_items : List LineItem) : List LineItem := []

/-- Cart states reachable from the empty cart through the mutation API of
`cart.js` (`addItem`, `removeItem`, `updateQuantity`, `clearCart`). -/
inductive ReachableCart : List LineItem → Prop
  | empty : ReachableCart []
  | add (s : List LineItem) (p : ProductInput) :
      ReachableCart s → ReachableCart (addItem s p)
  | remove (s : List LineItem) (pid : Str) :
      ReachableCart s → ReachableCart (removeItem s pid)
  | update (s : List LineItem) (pid : Str) (cq d : ℤ) :
      ReachableCart s → ReachableCart (updateQuantity s pid cq d)
  | clear (s : List LineItem) :
      ReachableCart s → ReachableCart (clearCart s)

/-! ## Persistence (`loadCart` / `updateCart`), modelled storage

`localStorage` holds at most one string under the fixed key `'cart'`.  The
model folds `JSON.stringify`/`JSON.parse` of the runtime into a stored-value
datatype: a serialised item list, some other JSON value (parseable but not an
array), or a string that is not JSON at all.  `JSON.parse` is modelled by
`parseStored`, whose `.error` result corresponds to the exception caught by
the `try/catch` in `loadCart`. -/

/-- The storage key `CART_CONFIG.STORAGE.CART_ITEMS`. -/
def cartStorageKey : Str := str "cart"

/-- A value found in storage under the cart key. -/
inductive StoredVal
  | jsonArr (items : List LineItem)
  | jsonOther
  | notJson (s : Str)
deriving DecidableEq

/-- `JSON.parse` on a stored value: a non-JSON string throws (modelled as
`.error`), other JSON parses to either an item array or something else. -/
def parseStored : StoredVal → Except Str (Option (List LineItem))
  | .jsonArr items => .ok (some items)
  | .jsonOther => .ok none
  | .notJson _ => .error (str "SyntaxError")

/-- The storage write performed at the end of every `updateCart` call:
`localStorage.setItem(CART_CONFIG.STORAGE.CART_ITEMS, JSON.stringify(this.items))`. -/
def updateCartStore (items : List LineItem) : Str × StoredVal :=
  (cartStorageKey, .jsonArr items)

/-- `ShoppingCart.loadCart` from `cart.js` (lines 646-660), as a function of
the stored value and the current item list.  `none` (missing key) leaves the
items unchanged; a parse error is caught and resets the items to `[]`; a
parsed non-array is ignored; a parsed array replaces the items.  The function
is total: no exception escapes. -/
def loadCart (stored : Option StoredVal) (current : List LineItem) :
    List LineItem :=
  match stored with
  | none => current
  | some v =>
      match parseStored v with
      | .ok (some items) => items
      | .ok none => current
      | .error _ => []

/-! ## Formatting helpers -/

/-- Decimal rendering of a natural number. -/
def natToStr (n : ℕ) : Str := Nat.toDigits 10 n

/-- Decimal rendering of an integer (JS template interpolation of a number
that is an integer). -/
def intToStr (i : ℤ) : Str :=
  if i < 0 then '-' :: natToStr i.natAbs else natToStr i.toNat

/-- Two-digit zero-padded rendering, for the cents part of `toFixed(2)`. -/
def pad2 (n : ℕ) : Str := if n < 10 then '0' :: natToStr n else natToStr n

/-- `Number.prototype.toFixed(2)` on a non-negative rational `num/den`:
round to a whole number of cents (half up: `⌊q·100 + 1/2⌋ =
(num·200 + den) / (2·den)`) and print with exactly two decimals.  The
computation uses the numerator and denominator directly so that it reduces
in the kernel. -/
def toFixed2OfNonneg (num : ℤ) (den : ℤ) : Str :=
  let cents : ℕ := ((num * 200 + den) / (2 * den)).toNat
  natToStr (cents / 100) ++ '.' :: pad2 (cents % 100)

/-- `Number.prototype.toFixed(2)`.  Negative values print with a leading
minus sign; on the exact decimal values of the claims this agrees with JS. -/
def toFixed2 (q : ℚ) : Str :=
  if q < 0 then '-' :: toFixed2OfNonneg (-q.num) q.den
  else toFixed2OfNonneg q.num q.den

/-- The per-item block of `formatOrderEmail`:
`${index+1}. ${name}\n   Quantity: …\n   Price: €…\n   Total: €…\n\n`
with the `'N/A'` sentinel when the price is falsy. -/
def formatItemLine (idx : ℕ) (it : LineItem) : Str :=
  natToStr (idx + 1) ++ str ". " ++ it.name ++ str "\n   Quantity: " ++
    intToStr it.quantity ++ str "\n   Price: €" ++
    (match jsTruthy it.price with
     | some p => toFixed2 p
     | none => str "N/A") ++
    str "\n   Total: €" ++
    (match jsTruthy it.price with
     | some p => toFixed2 (p * it.quantity)
     | none => str "N/A") ++
    str "\n\n"

/-- Render the numbered item listing of `formatOrderEmail`. -/
def formatItems (items : List LineItem) : Str :=
  (items.enum.map fun (idx, it) => formatItemLine idx it).flatten

/-- `ShoppingCart.formatOrderEmail` from `cart.js` (lines 917-951).
`fmtDate` models `ts => new Date(ts).toLocaleString()`, which is
locale-dependent and therefore a parameter of the embedding. -/
def formatOrderEmail (o : OrderRecord) (fmtDate : Str → Str) : Str :=
  str "New Order Details:\n\n" ++
  str "Customer Information:\n" ++
  str "Name: " ++ o.customer.name ++ str "\n" ++
  str "Email: " ++ o.customer.email ++ str "\n\n" ++
  str "Shipping Address:\n" ++
  str "Street: " ++ o.customer.address.street ++ str "\n" ++
  str "City: " ++ o.customer.address.city ++ str "\n" ++
  str "Postal Code: " ++ o.customer.address.postal ++ str "\n" ++
  str "Country: " ++ o.customer.address.country ++ str "\n\n" ++
  str "Order Items:\n" ++
  formatItems o.items ++
  str "Order Total: €" ++ toFixed2 o.total ++ str "\n\n" ++
  str "Order Date: " ++ fmtDate o.timestamp ++ str "\n\n" ++
  str "Please process this order and contact the customer for payment and delivery arrangements.\n"

/-- Check whether `pat` is a leading prefix of `s` (plain, case-sensitive). -/
def strStarts (pat s : Str) : Bool :=
  match pat, s with
  | [], _ => true
  | _ :: _, [] => false
  | p :: ps, c :: cs => p = c && strStarts ps cs

/-- Does `s` contain `pat` as a contiguous substring? -/
def containsSubstr (s pat : Str) : Bool :=
  match s with
  | [] => strStarts pat []
  | _ :: rest => strStarts pat s || containsSubstr rest pat

/-- Index of the first occurrence of `pat` in `s`, if any. -/
def firstIdx (s pat : Str) : Option ℕ :=
  match s with
  | [] => if strStarts pat [] then some 0 else none
  | _ :: rest =>
      if strStarts pat s then some 0
      else (firstIdx rest pat).map (· + 1)

/-! ## Checkout pipeline of `cart.js` (effect traces)

Clipboard writes, `confirm` prompts, `alert`s and `mailto:` navigation are
externally visible side effects; each pipeline function returns the cart
state it leaves behind together with the ordered list of effects it emits.
The clipboard outcome and the answer to the `confirm` prompt are inputs
(`clipOk`, `userConfirmed`): they are decided by the environment/user. -/

/-- Mutable cart-widget state relevant to checkout: the item list and the
customer info object. -/
structure CartState where
  items : List LineItem
  customerInfo : CustomerInfo
deriving DecidableEq

/-- An externally visible side effect of the checkout pipeline.  A
`navigateMailto` effect carries the subject and body handed to
`encodeURIComponent` when the `mailto:` URI is built, i.e. the
percent-decoded subject and body of the URI. -/
inductive Effect
  | clipboardAttempt (text : Str)
  | confirmPrompt (msg : Str)
  | navigateMailto (subject body : Str)
  | alertMsg (msg : Str)
  | showSuccess
  | formReset
deriving DecidableEq

/-- Predicate picking out clipboard effects. -/
def Effect.isClipboard : Effect → Bool
  | .clipboardAttempt _ => true
  | _ => false

/-- The subject built in `ShoppingCart.sendOrderEmail`:
`` `New Order from ${orderData.customer.name}` ``. -/
def mailSubject (o : OrderRecord) : Str :=
  str "New Order from " ++ o.customer.name

/-- Result of `ShoppingCart.sendOrderEmail`: whether the returned promise
resolved, and the effect trace. -/
structure SendOutcome where
  resolved : Bool
  effects : List Effect
deriving DecidableEq

/-- The confirmation prompt shown when the clipboard copy succeeded. -/
def confirmMsgCopied : Str :=
  str "Order details have been copied to your clipboard!\n\nClick OK to open your email client, or Cancel to handle manually.\n\nYou can paste the order details into any email application."

/-- The degraded confirmation prompt shown when the clipboard copy failed. -/
def confirmMsgFallback : Str :=
  str "Click OK to open your email client with the order details.\n\nNote: Order details could not be copied to clipboard automatically."

/-- `ShoppingCart.sendOrderEmail` from `cart.js` (lines 820-869).  The body
is formatted, a clipboard copy is attempted, a confirmation prompt is shown
(with degraded wording when the copy failed), navigation to the `mailto:`
URI happens only on confirmation, and the promise resolves on both branches.
`formatOrderEmail` is total in the model, so the executor never throws and
the `reject` path of the wrapping `try/catch` is unreachable. -/
def sendOrderEmail (o : OrderRecord) (fmtDate : Str → Str)
    (clipOk userConfirmed : Bool) : SendOutcome :=
  let body := formatOrderEmail o fmtDate
  { resolved := true
  , effects :=
      .clipboardAttempt body ::
      .confirmPrompt (if clipOk then confirmMsgCopied else confirmMsgFallback) ::
      (if userConfirmed then [.navigateMailto (mailSubject o) body] else []) }

/-- The order record assembled by `submitOrder`:
`{items: this.items, customer: this.customerInfo, total: this.total,
timestamp: new Date().toISOString()}` (`ts` models the timestamp). -/
def orderDataOf (s : CartState) (ts : Str) : OrderRecord :=
  { items := s.items, customer := s.customerInfo
  , total := cartTotal s.items, timestamp := ts }

/-- The failure alert of `submitOrder`'s `.catch` handler. -/
def submitFailMsg : Str :=
  str "Failed to send order. Please try again or contact us directly."

/-- The `.then`/`.catch` continuation of `ShoppingCart.submitOrder`
(lines 772-811): on resolution the success message is shown, the cart is
cleared, the form is reset and the customer info is re-created; on rejection
the state is untouched and a failure alert is shown. -/
def submitOrderResolve (s : CartState) (dispatchOk : Bool)
    (pipelineEffects : List Effect) : CartState × List Effect :=
  if dispatchOk then
    ({ items := [], customerInfo := defaultCustomerInfo }
    , pipelineEffects ++ [.showSuccess, .formReset])
  else (s, pipelineEffects ++ [.alertMsg submitFailMsg])

/-- `ShoppingCart.submitOrder` from `cart.js` (lines 751-812): build the
order record from the current state (no emptiness check) and run
`sendOrderEmail`, then the success/failure continuation. -/
def submitOrder (s : CartState) (fmtDate : Str → Str) (ts : Str)
    (clipOk userConfirmed : Bool) : CartState × List Effect :=
  let out := sendOrderEmail (orderDataOf s ts) fmtDate clipOk userConfirmed
  submitOrderResolve s out.resolved out.effects

/-- The empty-cart alert of `processCheckout`/`handleFormSubmit`. -/
def emptyCartMsg : Str := str "Your cart is empty"

/-- The order text built by `processCheckout` for the clipboard (lines
357-377 of `cart.js`). -/
def processCheckoutText (s : CartState) : Str :=
  str "Order Details:\n\n" ++
  str "Customer Information:\n" ++
  str "Name: " ++ s.customerInfo.name ++ str "\n" ++
  str "Email: " ++ s.customerInfo.email ++ str "\n\n" ++
  str "Delivery Address:\n" ++
  s.customerInfo.address.street ++ str "\n" ++
  s.customerInfo.address.city ++ str ", " ++ s.customerInfo.address.postal ++ str "\n" ++
  s.customerInfo.address.country ++ str "\n\n" ++
  str "Items:\n" ++
  (s.items.map fun it =>
    str "- " ++ it.name ++ str "\n  Quantity: " ++ intToStr it.quantity ++
    (match jsTruthy it.price with
     | some p => str "\n  Price: €" ++ toFixed2 (p * it.quantity) ++ str "\n"
     | none => str "\n") ++ str "\n").flatten ++
  str "Total: €" ++ toFixed2 (cartTotal s.items)

/-- `ShoppingCart.processCheckout` from `cart.js` (lines 351-424): an empty
cart is rejected with an alert before any other effect; otherwise the order
text is copied (`enc` models `encodeURIComponent` for the `mailto:` body the
code assembles separately), an alert is shown, the browser navigates to the
`mailto:` URI and the form and cart are cleared on both clipboard branches. -/
def processCheckout (s : CartState) (enc : Str → Str) (clipOk : Bool) :
    CartState × List Effect :=
  if s.items = [] then (s, [.alertMsg emptyCartMsg])
  else
    let orderText := processCheckoutText s
    let subject := enc (str "Order from " ++ s.customerInfo.name)
    let okMsg := str "Thanks " ++ s.customerInfo.name ++
      str "! I've copied your order to your clipboard - just paste it anywhere to send it to me. Can't wait to get started on it!"
    let errMsg := str "Oops! Something went wrong while trying to copy your order. Opening email client instead!"
    ({ items := [], customerInfo := defaultCustomerInfo }
    , .clipboardAttempt orderText ::
      .alertMsg (if clipOk then okMsg else errMsg) ::
      [.navigateMailto subject orderText, .formReset])

/-- `ShoppingCart.handleFormSubmit` from `cart.js` (lines 333-345): an empty
cart is rejected with an alert before validation; an invalid form is a silent
no-op; otherwise `processCheckout` runs. -/
def handleFormSubmit (s : CartState) (formValid : Bool) (enc : Str → Str)
    (clipOk : Bool) : CartState × List Effect :=
  if s.items = [] then (s, [.alertMsg emptyCartMsg])
  else if ¬formValid then (s, [])
  else processCheckout s enc clipOk

/-! ## InputSanitizer and EmailService.sanitizeOrderData

The implementation modules `sanitizer.js` and `emailService.js` are absent
from the sources (only their test suites are present), so the sanitizer is
modelled from the specification: `sanitizeString` strips HTML-tag-like
substructures, `javascript:`-scheme-like substrings (case-insensitively) and
inline event-handler-attribute-like substrings, then trims whitespace, and
is required to be idempotent — hence stripping is iterated to a fixed point.
ASCII case folding models `toLowerCase`. -/

/-- Whitespace test used by trimming (ASCII whitespace). -/
def isWS (c : Char) : Bool :=
  c.toNat = 32 || c.toNat = 9 || c.toNat = 10 || c.toNat = 13

/-- ASCII lower-casing of one character. -/
def lcChar (c : Char) : Char :=
  if 65 ≤ c.toNat ∧ c.toNat ≤ 90 then Char.ofNat (c.toNat + 32) else c

/-- ASCII lower-casing of a string (`String.prototype.toLowerCase`). -/
def lowerStr (s : Str) : Str := s.map lcChar

/-- ASCII letter test (used for the event-handler attribute name). -/
def isAsciiLetter (c : Char) : Bool :=
  (65 ≤ c.toNat && c.toNat ≤ 90) || (97 ≤ c.toNat && c.toNat ≤ 122)

/-- Is there a later `>` in the string? -/
def hasGt : Str → Bool
  | [] => false
  | c :: r => c = '>' || hasGt r

/-- Does the string contain an HTML-tag-like span, i.e. a `<` with a `>`
somewhere after it? -/
def hasTag : Str → Bool
  | [] => false
  | c :: r => (c = '<' && hasGt r) || hasTag r

/-- Drop characters up to and including the first `>`; `none` if there is
no `>`. -/
def dropThroughGt : Str → Option Str
  | [] => none
  | c :: r => if c = '>' then some r else dropThroughGt r

/-- Modelled from the spec: one step of HTML-tag stripping — remove the
leftmost `<…>` span (from the first `<` that has a later `>` up to the
nearest such `>`), cf. a global replace of `<[^>]*>`. -/
def tagPass : Str → Str
  | [] => []
  | c :: r =>
      if c = '<' then
        match dropThroughGt r with
        | some rem => rem
        | none => c :: tagPass r
      else c :: tagPass r

/-- Case-insensitive prefix test against an (all-lowercase) pattern. -/
def ciStarts (pat s : Str) : Bool :=
  match pat, s with
  | [], _ => true
  | _ :: _, [] => false
  | p :: ps, c :: cs => lcChar c = p && ciStarts ps cs

/-- Does the string contain a case-insensitive occurrence of `pat`? -/
def hasCI (pat : Str) : Str → Bool
  | [] => false
  | c :: r => ciStarts pat (c :: r) || hasCI pat r

/-- Remove the leftmost case-insensitive occurrence of `pat`. -/
def removeFirstCI (pat : Str) : Str → Str
  | [] => []
  | c :: r =>
      if ciStarts pat (c :: r) then (c :: r).drop pat.length
      else c :: removeFirstCI pat r

/-- The stripped scheme pattern `javascript:`. -/
def jsPat : Str := str "javascript:"

/-- Modelled from the spec: one step of `javascript:`-scheme stripping. -/
def jsPass (s : Str) : Str := removeFirstCI jsPat s

/-- Consume characters up to and including the first `"`; `none` if there
is no closing quote. -/
def scanQuote : Str → Option Str
  | [] => none
  | c :: r => if c = '"' then some r else scanQuote r

/-- Modelled from the spec: does an inline event-handler-attribute-like
substring (`on` + letters + `="…"`, case-insensitive) start at the head of
the string?  Returns the remainder after the closing quote. -/
def matchHandler : Str → Option Str
  | c1 :: c2 :: c3 :: rest =>
      if lcChar c1 = 'o' ∧ lcChar c2 = 'n' ∧ isAsciiLetter c3 then
        match rest.dropWhile isAsciiLetter with
        | d1 :: d2 :: r2 =>
            if d1 = '=' ∧ d2 = '"' then scanQuote r2 else none
        | _ => none
      else none
  | _ => none

/-- Does the string contain an event-handler-attribute-like substring? -/
def hasHandler : Str → Bool
  | [] => false
  | c :: r => (matchHandler (c :: r)).isSome || hasHandler r

/-- Modelled from the spec: one step of event-handler stripping — remove the
leftmost event-handler-attribute-like substring. -/
def handlerPass : Str → Str
  | [] => []
  | c :: r =>
      match matchHandler (c :: r) with
      | some rest => rest
      | none => c :: handlerPass r

/-- One combined stripping pass: tags, then `javascript:`, then event
handlers. -/
def sanitizePass (s : Str) : Str := handlerPass (jsPass (tagPass s))

/-- Iterate `sanitizePass` to a fixed point (each productive pass strictly
shortens the string, so `length + 1` rounds always suffice). -/
def sanitizeCore : ℕ → Str → Str
  | 0, s => s
  | n + 1, s =>
      let t := sanitizePass s
      if t = s then s else sanitizeCore n t

/-- Leading/trailing-whitespace trim (`String.prototype.trim`, ASCII). -/
def trimStr (s : Str) : Str :=
  ((s.dropWhile isWS).reverse.dropWhile isWS).reverse

/-- Modelled from the spec: `InputSanitizer.sanitizeString` of the absent
`sanitizer.js` — strip HTML-tag-like substructures, `javascript:`-scheme-like
substrings and inline event-handler-attribute-like substrings (iterated to a
fixed point, since the spec requires idempotence), then trim whitespace.
Coercion of non-string/absent inputs to strings happens before this model's
domain. -/
def sanitizeString (s : Str) : Str :=
  trimStr (sanitizeCore (s.length + 1) s)

/-- Modelled from the spec: the normalising part of
`InputSanitizer.sanitizeEmail` — `sanitizeString`, then lower-case (its
validation of the local@domain shape is a separate concern). -/
def sanitizeEmailStr (s : Str) : Str := lowerStr (sanitizeString s)

/-- Modelled from the spec: per-item sanitization inside
`EmailService.sanitizeOrderData` of the absent `emailService.js` — sanitize
the text fields, preserve the numeric fields. -/
def sanitizeItem (it : LineItem) : LineItem :=
  { id := sanitizeString it.id, name := sanitizeString it.name
  , price := it.price, quantity := it.quantity
  , image := sanitizeString it.image }

/-- Modelled from the spec: customer sanitization inside
`EmailService.sanitizeOrderData` — sanitize name and address fields,
sanitize and lower-case the email. -/
def sanitizeCustomer (c : CustomerInfo) : CustomerInfo :=
  { name := sanitizeString c.name, email := sanitizeEmailStr c.email
  , acceptedTos := c.acceptedTos
  , address :=
    { street := sanitizeString c.address.street
    , city := sanitizeString c.address.city
    , postal := sanitizeString c.address.postal
    , country := sanitizeString c.address.country } }

/-- Modelled from the spec: `EmailService.sanitizeOrderData` of the absent
`emailService.js` — apply the InputSanitizer rules to every item and to the
customer info, preserving `total` and `timestamp`. -/
def sanitizeOrderData (o : OrderRecord) : OrderRecord :=
  { items := o.items.map sanitizeItem
  , customer := sanitizeCustomer o.customer
  , total := o.total, timestamp := o.timestamp }

/-- Modelled from the spec: the sanitize → format → mail-URI stages of
`EmailService.sendOrderEmail` of the absent `emailService.js`, returning the
percent-decoded subject and body of the constructed `mailto:` URI. -/
def emailServiceMailParts (o : OrderRecord) (fmtDate : Str → Str) : Str × Str :=
  let o' := sanitizeOrderData o
  (str "New Order from " ++ o'.customer.name, formatOrderEmail o' fmtDate)

/-! ## Character-level lemmas for the sanitizer -/

theorem char_toNat_inj {a b : Char} (h : a.toNat = b.toNat) : a = b := by
  have ha := Char.ofNat_toNat a
  have hb := Char.ofNat_toNat b
  rw [← ha, ← hb, h]

theorem toNat_ofNat_valid {n : ℕ} (h : n < 55296) : (Char.ofNat n).toNat = n := by
  rw [Char.ofNat, dif_pos (Or.inl h)]
  rfl

theorem lcChar_toNat (c : Char) :
    (lcChar c).toNat =
      if 65 ≤ c.toNat ∧ c.toNat ≤ 90 then c.toNat + 32 else c.toNat := by
  unfold lcChar
  split
  · next h => exact toNat_ofNat_valid (by omega)
  · rfl

theorem lcChar_lcChar (c : Char) : lcChar (lcChar c) = lcChar c := by
  have h1 := lcChar_toNat c
  have h2 := lcChar_toNat (lcChar c)
  apply char_toNat_inj
  rw [h2]
  split_ifs with h
  · rw [h1] at h
    split_ifs at h with h3
    · omega
    · omega
  · rfl

theorem lcChar_eq_low {c t : Char}
    (ht : t.toNat < 65 ∨ (90 < t.toNat ∧ t.toNat < 97) ∨ 122 < t.toNat) :
    lcChar c = t ↔ c = t := by
  constructor
  · intro h
    have h2 := lcChar_toNat c
    rw [h] at h2
    by_cases h3 : 65 ≤ c.toNat ∧ c.toNat ≤ 90
    · rw [if_pos h3] at h2
      omega
    · rw [if_neg h3] at h2
      exact char_toNat_inj h2.symm
  · intro h
    subst h
    unfold lcChar
    rw [if_neg (by omega)]

theorem isAsciiLetter_lcChar (c : Char) :
    isAsciiLetter (lcChar c) = isAsciiLetter c := by
  have h := lcChar_toNat c
  unfold isAsciiLetter
  by_cases h3 : 65 ≤ c.toNat ∧ c.toNat ≤ 90
  · rw [if_pos h3] at h
    rw [h, Bool.eq_iff_iff]
    simp only [Bool.or_eq_true, Bool.and_eq_true, decide_eq_true_eq]
    omega
  · rw [if_neg h3] at h
    rw [h]

theorem isWS_lcChar (c : Char) : isWS (lcChar c) = isWS c := by
  have h := lcChar_toNat c
  unfold isWS
  by_cases h3 : 65 ≤ c.toNat ∧ c.toNat ≤ 90
  · rw [if_pos h3] at h
    rw [h, Bool.eq_iff_iff]
    simp only [Bool.or_eq_true, decide_eq_true_eq]
    omega
  · rw [if_neg h3] at h
    rw [h]

/-! ## Pass-shortening and fixed-point lemmas -/

theorem length_dropWhile_le (p : Char → Bool) (l : Str) :
    (l.dropWhile p).length ≤ l.length := by
  induction l with
  | nil => simp
  | cons c r ih =>
    rw [List.dropWhile_cons]
    split_ifs
    · exact Nat.le_succ_of_le ih
    · exact Nat.le_refl _

theorem dropThroughGt_length {r rem : Str} (h : dropThroughGt r = some rem) :
    rem.length < r.length := by
  induction r with
  | nil => simp [dropThroughGt] at h
  | cons c rest ih =>
    rw [dropThroughGt] at h
    split_ifs at h with hc
    · injection h with h2
      subst h2
      exact Nat.lt_succ_self _
    · exact Nat.lt_succ_of_lt (ih h)

theorem scanQuote_length {r rem : Str} (h : scanQuote r = some rem) :
    rem.length < r.length := by
  induction r with
  | nil => simp [scanQuote] at h
  | cons c rest ih =>
    rw [scanQuote] at h
    split_ifs at h with hc
    · injection h with h2
      subst h2
      exact Nat.lt_succ_self _
    · exact Nat.lt_succ_of_lt (ih h)

theorem tagPass_eq_or_lt (s : Str) :
    tagPass s = s ∨ (tagPass s).length < s.length := by
  induction s with
  | nil => left; rfl
  | cons c r ih =>
    rw [tagPass]
    split_ifs with hc
    · cases hg : dropThroughGt r with
      | some rem =>
        right
        exact Nat.lt_succ_of_lt (dropThroughGt_length hg)
      | none =>
        rcases ih with h1 | h1
        · left; rw [h1]
        · right; exact Nat.succ_lt_succ h1
    · rcases ih with h1 | h1
      · left; rw [h1]
      · right; exact Nat.succ_lt_succ h1

theorem removeFirstCI_eq_or_lt (pat : Str) (hpat : 0 < pat.length) (s : Str) :
    removeFirstCI pat s = s ∨ (removeFirstCI pat s).length < s.length := by
  induction s with
  | nil => left; rfl
  | cons c r ih =>
    rw [removeFirstCI]
    split_ifs with hci
    · right
      rw [List.length_drop]
      simp only [List.length_cons]
      omega
    · rcases ih with h1 | h1
      · left; rw [h1]
      · right; exact Nat.succ_lt_succ h1

theorem matchHandler_some_length {s rest : Str} (h : matchHandler s = some rest) :
    rest.length < s.length := by
  match s with
  | [] => simp [matchHandler] at h
  | [c1] => simp [matchHandler] at h
  | [c1, c2] => simp [matchHandler] at h
  | c1 :: c2 :: c3 :: r =>
    rw [matchHandler] at h
    split_ifs at h with hcond
    · revert h
      cases hdw : r.dropWhile isAsciiLetter with
      | nil => intro h; simp at h
      | cons d1 t1 =>
        cases t1 with
        | nil => intro h; exact absurd h (by simp)
        | cons d2 t2 =>
          intro h
          change (if d1 = '=' ∧ d2 = '"' then scanQuote t2 else none) =
            some rest at h
          split_ifs at h with hq
          have hlen1 : rest.length < t2.length := scanQuote_length h
          have hlen2 := congrArg List.length hdw
          have hlen4 := length_dropWhile_le isAsciiLetter r
          simp only [List.length_cons] at hlen2 ⊢
          omega

theorem handlerPass_eq_or_lt (s : Str) :
    handlerPass s = s ∨ (handlerPass s).length < s.length := by
  induction s with
  | nil => left; rfl
  | cons c r ih =>
    rw [handlerPass]
    cases hm : matchHandler (c :: r) with
    | some rest =>
      right
      exact matchHandler_some_length hm
    | none =>
      rcases ih with h1 | h1
      · left; rw [h1]
      · right; exact Nat.succ_lt_succ h1

theorem jsPat_pos : 0 < jsPat.length := by decide

theorem tagPass_length_le (s : Str) : (tagPass s).length ≤ s.length := by
  rcases tagPass_eq_or_lt s with h | h
  · rw [h]
  · exact Nat.le_of_lt h

theorem jsPass_eq_or_lt (s : Str) :
    jsPass s = s ∨ (jsPass s).length < s.length :=
  removeFirstCI_eq_or_lt jsPat jsPat_pos s

theorem jsPass_length_le (s : Str) : (jsPass s).length ≤ s.length := by
  rcases jsPass_eq_or_lt s with h | h
  · rw [h]
  · exact Nat.le_of_lt h

theorem handlerPass_length_le (s : Str) : (handlerPass s).length ≤ s.length := by
  rcases handlerPass_eq_or_lt s with h | h
  · rw [h]
  · exact Nat.le_of_lt h

theorem sanitizePass_eq_or_lt (s : Str) :
    sanitizePass s = s ∨ (sanitizePass s).length < s.length := by
  unfold sanitizePass
  rcases tagPass_eq_or_lt s with h1 | h1
  · rw [h1]
    rcases jsPass_eq_or_lt s with h2 | h2
    · rw [h2]
      exact handlerPass_eq_or_lt s
    · right
      exact Nat.lt_of_le_of_lt (handlerPass_length_le _) h2
  · right
    have l2 := jsPass_length_le (tagPass s)
    have l3 := handlerPass_length_le (jsPass (tagPass s))
    omega

theorem sanitizePass_fix_parts {s : Str} (h : sanitizePass s = s) :
    tagPass s = s ∧ jsPass s = s ∧ handlerPass s = s := by
  have hl := congrArg List.length h
  unfold sanitizePass at hl
  have l2 := jsPass_length_le (tagPass s)
  have l3 := handlerPass_length_le (jsPass (tagPass s))
  have e1 : tagPass s = s := by
    rcases tagPass_eq_or_lt s with h1 | h1
    · exact h1
    · omega
  rw [e1] at l2 l3 hl
  have e2 : jsPass s = s := by
    rcases jsPass_eq_or_lt s with h2 | h2
    · exact h2
    · omega
  refine ⟨e1, e2, ?_⟩
  unfold sanitizePass at h
  rw [e1, e2] at h
  exact h

theorem sanitizeCore_of_fix {s : Str} (h : sanitizePass s = s) (n : ℕ) :
    sanitizeCore n s = s := by
  cases n with
  | zero => rfl
  | succ m =>
    rw [sanitizeCore]
    simp [h]

theorem sanitizePass_sanitizeCore :
    ∀ (n : ℕ) (s : Str), s.length < n →
      sanitizePass (sanitizeCore n s) = sanitizeCore n s := by
  intro n
  induction n with
  | zero => intro s h; omega
  | succ m ih =>
    intro s h
    rw [sanitizeCore]
    by_cases hf : sanitizePass s = s
    · simp only [hf, if_pos]
    · simp only [if_neg hf]
      have hlt : (sanitizePass s).length < s.length :=
        (sanitizePass_eq_or_lt s).resolve_left hf
      exact ih (sanitizePass s) (by omega)

/-! ## Fixed points of the passes have no strippable pattern -/

theorem dropThroughGt_none_iff {r : Str} :
    dropThroughGt r = none ↔ hasGt r = false := by
  induction r with
  | nil => simp [dropThroughGt, hasGt]
  | cons c rest ih =>
    rw [dropThroughGt, hasGt]
    split_ifs with hc
    · simp [hc]
    · simp [hc, ih]

theorem tagPass_fix_no {s : Str} (h : tagPass s = s) : hasTag s = false := by
  induction s with
  | nil => rfl
  | cons c r ih =>
    rw [tagPass] at h
    rw [hasTag]
    split_ifs at h with hc
    · cases hg : dropThroughGt r with
      | some rem =>
        rw [hg] at h
        have h1 := dropThroughGt_length hg
        have h2 := congrArg List.length h
        simp only [List.length_cons] at h2
        omega
      | none =>
        rw [hg] at h
        injection h with hh ht
        have hgt := dropThroughGt_none_iff.mp hg
        simp [hgt, ih ht]
    · injection h with hh ht
      simp [hc, ih ht]

theorem tagPass_of_no {s : Str} (h : hasTag s = false) : tagPass s = s := by
  induction s with
  | nil => rfl
  | cons c r ih =>
    rw [hasTag] at h
    simp only [Bool.or_eq_false_iff, Bool.and_eq_false_iff] at h
    obtain ⟨h1, h2⟩ := h
    rw [tagPass]
    split_ifs with hc
    · have hgt : hasGt r = false := by
        rcases h1 with h1 | h1
        · simp [hc] at h1
        · exact h1
      rw [dropThroughGt_none_iff.mpr hgt]
      rw [ih h2]
    · rw [ih h2]

theorem removeFirstCI_fix_no {pat s : Str} (hpat : 0 < pat.length)
    (h : removeFirstCI pat s = s) : hasCI pat s = false := by
  induction s with
  | nil => rfl
  | cons c r ih =>
    rw [removeFirstCI] at h
    rw [hasCI]
    split_ifs at h with hci
    · have h2 := congrArg List.length h
      rw [List.length_drop] at h2
      simp only [List.length_cons] at h2
      omega
    · injection h with hh ht
      simp [hci, ih ht]

theorem removeFirstCI_of_no {pat s : Str} (h : hasCI pat s = false) :
    removeFirstCI pat s = s := by
  induction s with
  | nil => rfl
  | cons c r ih =>
    rw [hasCI] at h
    simp only [Bool.or_eq_false_iff] at h
    obtain ⟨h1, h2⟩ := h
    rw [removeFirstCI]
    rw [if_neg (by simp [h1])]
    rw [ih h2]

theorem handlerPass_fix_no {s : Str} (h : handlerPass s = s) :
    hasHandler s = false := by
  induction s with
  | nil => rfl
  | cons c r ih =>
    rw [handlerPass] at h
    rw [hasHandler]
    cases hm : matchHandler (c :: r) with
    | some rest =>
      rw [hm] at h
      have h3 : rest = c :: r := h
      have h1 := matchHandler_some_length hm
      have h2 := congrArg List.length h3
      omega
    | none =>
      rw [hm] at h
      injection h with hh ht
      simp [hm, ih ht]

theorem handlerPass_of_no {s : Str} (h : hasHandler s = false) :
    handlerPass s = s := by
  induction s with
  | nil => rfl
  | cons c r ih =>
    rw [hasHandler] at h
    simp only [Bool.or_eq_false_iff] at h
    obtain ⟨h1, h2⟩ := h
    rw [handlerPass]
    cases hm : matchHandler (c :: r) with
    | some rest =>
      rw [hm] at h1
      simp at h1
    | none =>
      rw [ih h2]

theorem sanitizePass_of_no {s : Str} (h1 : hasTag s = false)
    (h2 : hasCI jsPat s = false) (h3 : hasHandler s = false) :
    sanitizePass s = s := by
  unfold sanitizePass jsPass
  rw [tagPass_of_no h1, removeFirstCI_of_no h2, handlerPass_of_no h3]

theorem sanitizeCore_no_preds (s : Str) :
    hasTag (sanitizeCore (s.length + 1) s) = false ∧
    hasCI jsPat (sanitizeCore (s.length + 1) s) = false ∧
    hasHandler (sanitizeCore (s.length + 1) s) = false := by
  have hfix := sanitizePass_sanitizeCore (s.length + 1) s (Nat.lt_succ_self _)
  obtain ⟨e1, e2, e3⟩ := sanitizePass_fix_parts hfix
  exact ⟨tagPass_fix_no e1, removeFirstCI_fix_no jsPat_pos e2,
    handlerPass_fix_no e3⟩

/-! ## Trimming lemmas -/

theorem dropWhile_head_no {p : Char → Bool} {l : Str} {c : Char}
    (h : (l.dropWhile p).head? = some c) : p c = false := by
  induction l with
  | nil => simp [List.dropWhile] at h
  | cons a r ih =>
    rw [List.dropWhile_cons] at h
    split_ifs at h with ha
    · exact ih h
    · simp only [List.head?_cons, Option.some.injEq] at h
      subst h
      exact Bool.eq_false_iff.mpr ha

theorem dropWhile_getLast (p : Char → Bool) (l : Str) :
    (l.dropWhile p).getLast? = none ∨
    (l.dropWhile p).getLast? = l.getLast? := by
  induction l with
  | nil => left; rfl
  | cons a r ih =>
    rw [List.dropWhile_cons]
    split_ifs with ha
    · rcases ih with h | h
      · left; exact h
      · cases r with
        | nil =>
          left
          rfl
        | cons b t =>
          right
          rw [h, List.getLast?_cons_cons]
    · right; rfl

theorem getLast_reverse_eq_head (l : Str) : l.reverse.getLast? = l.head? := by
  have h := List.head?_reverse l.reverse
  rw [List.reverse_reverse] at h
  exact h.symm

theorem trimStr_head_no {l : Str} {c : Char}
    (h : (trimStr l).head? = some c) : isWS c = false := by
  unfold trimStr at h
  rw [List.head?_reverse] at h
  rcases dropWhile_getLast isWS (l.dropWhile isWS).reverse with h2 | h2
  · rw [h2] at h
    exact absurd h (by simp)
  · rw [h2, getLast_reverse_eq_head] at h
    exact dropWhile_head_no h

theorem trimStr_last_no {l : Str} {c : Char}
    (h : (trimStr l).getLast? = some c) : isWS c = false := by
  unfold trimStr at h
  rw [getLast_reverse_eq_head] at h
  exact dropWhile_head_no h

theorem trimStr_of_no {l : Str}
    (h1 : ∀ c, l.head? = some c → isWS c = false)
    (h2 : ∀ c, l.getLast? = some c → isWS c = false) :
    trimStr l = l := by
  have hA : l.dropWhile isWS = l := by
    cases l with
    | nil => rfl
    | cons a r =>
      rw [List.dropWhile_cons, if_neg]
      rw [h1 a rfl]
      simp
  unfold trimStr
  rw [hA]
  have hX : l.reverse.dropWhile isWS = l.reverse := by
    cases hrev : l.reverse with
    | nil => rfl
    | cons b t =>
      rw [List.dropWhile_cons, if_neg]
      have hb : l.getLast? = some b := by
        rw [← List.head?_reverse, hrev, List.head?_cons]
      rw [h2 b hb]
      simp
  rw [hX, List.reverse_reverse]

theorem trimStr_trimStr (l : Str) : trimStr (trimStr l) = trimStr l :=
  trimStr_of_no (fun _ h => trimStr_head_no h) (fun _ h => trimStr_last_no h)

theorem trimStr_decomp (l : Str) : ∃ a b, l = a ++ trimStr l ++ b := by
  refine ⟨l.takeWhile isWS,
    ((l.dropWhile isWS).reverse.takeWhile isWS).reverse, ?_⟩
  unfold trimStr
  conv_lhs => rw [← List.takeWhile_append_dropWhile (p := isWS) (l := l)]
  rw [List.append_assoc]
  congr 1
  have h :=
    List.takeWhile_append_dropWhile (p := isWS) (l := (l.dropWhile isWS).reverse)
  have h2 := congrArg List.reverse h
  rw [List.reverse_append, List.reverse_reverse] at h2
  exact h2.symm

/-! ## The stripped patterns cannot reappear in an infix of a clean string -/

theorem hasGt_true_iff {s : Str} : hasGt s = true ↔ '>' ∈ s := by
  induction s with
  | nil => simp [hasGt]
  | cons c r ih =>
    rw [hasGt]
    simp only [Bool.or_eq_true, decide_eq_true_eq, List.mem_cons, ih]
    constructor
    · rintro (h | h)
      · exact Or.inl h.symm
      · exact Or.inr h
    · rintro (h | h)
      · exact Or.inl h.symm
      · exact Or.inr h

theorem hasGt_mono {s1 s2 : Str} (h : List.Sublist s1 s2)
    (ht : hasGt s1 = true) : hasGt s2 = true :=
  hasGt_true_iff.mpr (h.subset (hasGt_true_iff.mp ht))

theorem hasTag_mono {s1 s2 : Str} (h : List.Sublist s1 s2) :
    hasTag s1 = true → hasTag s2 = true := by
  induction h with
  | slnil => intro ht; exact absurd ht (by simp [hasTag])
  | cons a h ih =>
    intro ht
    rw [hasTag]
    simp only [Bool.or_eq_true]
    exact Or.inr (ih ht)
  | cons₂ a h ih =>
    intro ht
    rw [hasTag] at ht ⊢
    simp only [Bool.or_eq_true, Bool.and_eq_true, decide_eq_true_eq] at ht ⊢
    rcases ht with ⟨ha, hg⟩ | ht
    · exact Or.inl ⟨ha, hasGt_mono h hg⟩
    · exact Or.inr (ih ht)

theorem hasTag_inside {a t b : Str}
    (hno : hasTag (a ++ t ++ b) = false) : hasTag t = false := by
  by_contra hcon
  have ht : hasTag t = true := by
    cases hx : hasTag t
    · exact absurd hx hcon
    · rfl
  have hsub : List.Sublist t (a ++ t ++ b) := by
    rw [List.append_assoc]
    exact (List.sublist_append_left t b).trans (List.sublist_append_right a _)
  rw [hasTag_mono hsub ht] at hno
  exact absurd hno (by simp)

theorem ciStarts_append {pat v b : Str} (h : ciStarts pat v = true) :
    ciStarts pat (v ++ b) = true := by
  induction pat generalizing v with
  | nil => rfl
  | cons p ps ih =>
    cases v with
    | nil => exact absurd h (by simp [ciStarts])
    | cons c cs =>
      rw [List.cons_append]
      rw [ciStarts] at h ⊢
      simp only [Bool.and_eq_true] at h ⊢
      exact ⟨h.1, ih h.2⟩

theorem hasCI_append_right {pat s b : Str} (h : hasCI pat s = true) :
    hasCI pat (s ++ b) = true := by
  induction s with
  | nil => exact absurd h (by simp [hasCI])
  | cons c r ih =>
    rw [List.cons_append]
    rw [hasCI] at h ⊢
    simp only [Bool.or_eq_true] at h ⊢
    rcases h with h | h
    · left
      have := ciStarts_append (b := b) h
      rwa [List.cons_append] at this
    · exact Or.inr (ih h)

theorem hasCI_append_left {pat s a : Str} (h : hasCI pat s = true) :
    hasCI pat (a ++ s) = true := by
  induction a with
  | nil => exact h
  | cons c r ih =>
    rw [List.cons_append, hasCI]
    simp only [Bool.or_eq_true]
    exact Or.inr ih

theorem hasCI_inside {pat a t b : Str}
    (hno : hasCI pat (a ++ t ++ b) = false) : hasCI pat t = false := by
  by_contra hcon
  have ht : hasCI pat t = true := by
    cases hx : hasCI pat t
    · exact absurd hx hcon
    · rfl
  rw [List.append_assoc] at hno
  rw [hasCI_append_left (hasCI_append_right ht)] at hno
  exact absurd hno (by simp)

theorem dropWhile_append_pos {p : Char → Bool} {l : Str}
    (hne : l.dropWhile p ≠ []) (b : Str) :
    (l ++ b).dropWhile p = l.dropWhile p ++ b := by
  induction l with
  | nil => exact absurd rfl hne
  | cons a r ih =>
    simp only [List.cons_append, List.dropWhile_cons]
    simp only [List.dropWhile_cons] at hne
    split_ifs at hne ⊢ with ha
    · exact ih hne
    · rw [List.cons_append]

theorem scanQuote_append {r res b : Str} (h : scanQuote r = some res) :
    scanQuote (r ++ b) = some (res ++ b) := by
  induction r with
  | nil => simp [scanQuote] at h
  | cons c t ih =>
    rw [List.cons_append, scanQuote]
    rw [scanQuote] at h
    split_ifs at h ⊢ with hc
    · injection h with h2
      rw [h2]
    · exact ih h

theorem matchHandler_append {v rest b : Str} (h : matchHandler v = some rest) :
    matchHandler (v ++ b) = some (rest ++ b) := by
  match v with
  | [] => simp [matchHandler] at h
  | [c1] => simp [matchHandler] at h
  | [c1, c2] => simp [matchHandler] at h
  | c1 :: c2 :: c3 :: r =>
    rw [matchHandler] at h
    simp only [List.cons_append]
    rw [matchHandler]
    split_ifs at h ⊢ with hcond
    revert h
    cases hdw : r.dropWhile isAsciiLetter with
    | nil => intro h; simp at h
    | cons d1 t1 =>
      cases t1 with
      | nil => intro h; exact absurd h (by simp)
      | cons d2 t2 =>
        intro h
        change (if d1 = '=' ∧ d2 = '"' then scanQuote t2 else none) =
          some rest at h
        split_ifs at h with hq
        have hne : r.dropWhile isAsciiLetter ≠ [] := by
          rw [hdw]; simp
        have hdwb : (r ++ b).dropWhile isAsciiLetter =
            d1 :: d2 :: (t2 ++ b) := by
          rw [dropWhile_append_pos hne, hdw]
          rfl
        rw [hdwb]
        change (if d1 = '=' ∧ d2 = '"' then scanQuote (t2 ++ b) else none) =
          some (rest ++ b)
        rw [if_pos hq]
        exact scanQuote_append h

theorem hasHandler_append_right {s b : Str} (h : hasHandler s = true) :
    hasHandler (s ++ b) = true := by
  induction s with
  | nil => exact absurd h (by simp [hasHandler])
  | cons c r ih =>
    rw [List.cons_append]
    rw [hasHandler] at h ⊢
    simp only [Bool.or_eq_true] at h ⊢
    rcases h with h | h
    · left
      obtain ⟨rest, hrest⟩ := Option.isSome_iff_exists.mp h
      have := matchHandler_append (b := b) hrest
      rw [List.cons_append] at this
      rw [this]
      rfl
    · exact Or.inr (ih h)

theorem hasHandler_append_left {s a : Str} (h : hasHandler s = true) :
    hasHandler (a ++ s) = true := by
  induction a with
  | nil => exact h
  | cons c r ih =>
    rw [List.cons_append, hasHandler]
    simp only [Bool.or_eq_true]
    exact Or.inr ih

theorem hasHandler_inside {a t b : Str}
    (hno : hasHandler (a ++ t ++ b) = false) : hasHandler t = false := by
  by_contra hcon
  have ht : hasHandler t = true := by
    cases hx : hasHandler t
    · exact absurd hx hcon
    · rfl
  rw [List.append_assoc] at hno
  rw [hasHandler_append_left (hasHandler_append_right ht)] at hno
  exact absurd hno (by simp)

/-! ## Lower-casing preserves cleanliness -/

theorem lcChar_eq_gt (c : Char) : (lcChar c = '>') = (c = '>') :=
  propext (lcChar_eq_low (by decide))

theorem lcChar_eq_lt (c : Char) : (lcChar c = '<') = (c = '<') :=
  propext (lcChar_eq_low (by decide))

theorem lcChar_eq_quote (c : Char) : (lcChar c = '"') = (c = '"') :=
  propext (lcChar_eq_low (by decide))

theorem lcChar_eq_eq (c : Char) : (lcChar c = '=') = (c = '=') :=
  propext (lcChar_eq_low (by decide))

theorem hasGt_map_lc (s : Str) : hasGt (s.map lcChar) = hasGt s := by
  induction s with
  | nil => rfl
  | cons c r ih =>
    rw [List.map_cons, hasGt, hasGt, ih]
    simp only [lcChar_eq_gt]

theorem hasTag_map_lc (s : Str) : hasTag (s.map lcChar) = hasTag s := by
  induction s with
  | nil => rfl
  | cons c r ih =>
    rw [List.map_cons, hasTag, hasTag, ih, hasGt_map_lc]
    simp only [lcChar_eq_lt]

theorem ciStarts_map_lc (pat : Str) : ∀ s : Str,
    ciStarts pat (s.map lcChar) = ciStarts pat s := by
  induction pat with
  | nil => intro s; rfl
  | cons p ps ih =>
    intro s
    cases s with
    | nil => rfl
    | cons c cs =>
      rw [List.map_cons, ciStarts, ciStarts, lcChar_lcChar, ih cs]

theorem hasCI_map_lc (pat : Str) (s : Str) :
    hasCI pat (s.map lcChar) = hasCI pat s := by
  induction s with
  | nil => rfl
  | cons c r ih =>
    rw [List.map_cons, hasCI, hasCI, ih]
    have h := ciStarts_map_lc pat (c :: r)
    rw [List.map_cons] at h
    rw [h]

theorem dropWhile_letter_map_lc (r : Str) :
    (r.map lcChar).dropWhile isAsciiLetter =
      (r.dropWhile isAsciiLetter).map lcChar := by
  induction r with
  | nil => rfl
  | cons c t ih =>
    rw [List.map_cons, List.dropWhile_cons, List.dropWhile_cons,
      isAsciiLetter_lcChar]
    split_ifs with hc
    · exact ih
    · rw [List.map_cons]

theorem scanQuote_map_lc (r : Str) :
    scanQuote (r.map lcChar) = (scanQuote r).map (List.map lcChar) := by
  induction r with
  | nil => rfl
  | cons c t ih =>
    rw [List.map_cons, scanQuote, scanQuote]
    simp only [lcChar_eq_quote]
    split_ifs with hc
    · rfl
    · exact ih

theorem matchHandler_map_lc (s : Str) :
    matchHandler (s.map lcChar) = (matchHandler s).map (List.map lcChar) := by
  match s with
  | [] => rfl
  | [c1] => rfl
  | [c1, c2] => rfl
  | c1 :: c2 :: c3 :: r =>
    simp only [List.map_cons]
    rw [matchHandler, matchHandler]
    simp only [lcChar_lcChar, isAsciiLetter_lcChar]
    split_ifs with hcond
    · rw [dropWhile_letter_map_lc]
      cases hdw : r.dropWhile isAsciiLetter with
      | nil => rfl
      | cons d1 t1 =>
        cases t1 with
        | nil => rfl
        | cons d2 t2 =>
          simp only [List.map_cons]
          show (if lcChar d1 = '=' ∧ lcChar d2 = '"' then
              scanQuote (t2.map lcChar) else none) =
            (if d1 = '=' ∧ d2 = '"' then scanQuote t2 else none).map
              (List.map lcChar)
          simp only [lcChar_eq_eq, lcChar_eq_quote]
          split_ifs with hq
          · exact scanQuote_map_lc t2
          · rfl
    · rfl

theorem hasHandler_map_lc (s : Str) :
    hasHandler (s.map lcChar) = hasHandler s := by
  induction s with
  | nil => rfl
  | cons c r ih =>
    rw [List.map_cons, hasHandler, hasHandler, ih]
    have h := matchHandler_map_lc (c :: r)
    rw [List.map_cons] at h
    rw [h]
    cases matchHandler (c :: r) <;> rfl

/-! ## The sanitized string is clean, and cleanliness implies fixedness -/

theorem sanitizeString_clean (s : Str) :
    hasTag (sanitizeString s) = false ∧
    hasCI jsPat (sanitizeString s) = false ∧
    hasHandler (sanitizeString s) = false := by
  obtain ⟨h1, h2, h3⟩ := sanitizeCore_no_preds s
  obtain ⟨a, b, hab⟩ := trimStr_decomp (sanitizeCore (s.length + 1) s)
  rw [hab] at h1 h2 h3
  exact ⟨hasTag_inside h1, hasCI_inside h2, hasHandler_inside h3⟩

theorem sanitizeString_of_clean {t : Str}
    (h1 : hasTag t = false) (h2 : hasCI jsPat t = false)
    (h3 : hasHandler t = false)
    (h4 : ∀ c, t.head? = some c → isWS c = false)
    (h5 : ∀ c, t.getLast? = some c → isWS c = false) :
    sanitizeString t = t := by
  unfold sanitizeString
  rw [sanitizeCore_of_fix (sanitizePass_of_no h1 h2 h3)]
  exact trimStr_of_no h4 h5

theorem sanitizeString_idem (s : Str) :
    sanitizeString (sanitizeString s) = sanitizeString s := by
  obtain ⟨h1, h2, h3⟩ := sanitizeString_clean s
  refine sanitizeString_of_clean h1 h2 h3 ?_ ?_
  · intro c hc
    exact trimStr_head_no hc
  · intro c hc
    exact trimStr_last_no hc

theorem lowerStr_lowerStr (s : Str) : lowerStr (lowerStr s) = lowerStr s := by
  unfold lowerStr
  rw [List.map_map]
  exact List.map_congr_left (fun c _ => lcChar_lcChar c)

theorem head_no_isWS_map_lc {y : Str}
    (h : ∀ c, y.head? = some c → isWS c = false) :
    ∀ c, (y.map lcChar).head? = some c → isWS c = false := by
  intro c hc
  rw [List.head?_map] at hc
  cases hy : y.head? with
  | none => rw [hy] at hc; exact absurd hc (by simp)
  | some d =>
    rw [hy] at hc
    have hc2 : lcChar d = c := by simpa using hc
    rw [← hc2, isWS_lcChar]
    exact h d hy

theorem last_no_isWS_map_lc {y : Str}
    (h : ∀ c, y.getLast? = some c → isWS c = false) :
    ∀ c, (y.map lcChar).getLast? = some c → isWS c = false := by
  intro c hc
  rw [List.getLast?_map] at hc
  cases hy : y.getLast? with
  | none => rw [hy] at hc; exact absurd hc (by simp)
  | some d =>
    rw [hy] at hc
    have hc2 : lcChar d = c := by simpa using hc
    rw [← hc2, isWS_lcChar]
    exact h d hy

theorem sanitizeString_lower_sanitized (s : Str) :
    sanitizeString (lowerStr (sanitizeString s)) =
      lowerStr (sanitizeString s) := by
  obtain ⟨h1, h2, h3⟩ := sanitizeString_clean s
  unfold lowerStr
  refine sanitizeString_of_clean ?_ ?_ ?_ ?_ ?_
  · rw [hasTag_map_lc]; exact h1
  · rw [hasCI_map_lc]; exact h2
  · rw [hasHandler_map_lc]; exact h3
  · exact head_no_isWS_map_lc (fun c hc => trimStr_head_no hc)
  · exact last_no_isWS_map_lc (fun c hc => trimStr_last_no hc)

theorem sanitizeEmailStr_idem (s : Str) :
    sanitizeEmailStr (sanitizeEmailStr s) = sanitizeEmailStr s := by
  unfold sanitizeEmailStr
  rw [sanitizeString_lower_sanitized, lowerStr_lowerStr]

theorem sanitizeItem_idem (it : LineItem) :
    sanitizeItem (sanitizeItem it) = sanitizeItem it := by
  unfold sanitizeItem
  simp only [sanitizeString_idem]

theorem sanitizeCustomer_idem (c : CustomerInfo) :
    sanitizeCustomer (sanitizeCustomer c) = sanitizeCustomer c := by
  unfold sanitizeCustomer
  simp only [sanitizeString_idem, sanitizeEmailStr_idem]

theorem sanitizeOrderData_idem (o : OrderRecord) :
    sanitizeOrderData (sanitizeOrderData o) = sanitizeOrderData o := by
  have h1 : (((o.items.map sanitizeItem).map sanitizeItem) : List LineItem) =
      o.items.map sanitizeItem := by
    rw [List.map_map]
    exact List.map_congr_left (fun it _ => sanitizeItem_idem it)
  show OrderRecord.mk ((o.items.map sanitizeItem).map sanitizeItem)
      (sanitizeCustomer (sanitizeCustomer o.customer)) o.total o.timestamp =
    OrderRecord.mk (o.items.map sanitizeItem) (sanitizeCustomer o.customer)
      o.total o.timestamp
  rw [h1, sanitizeCustomer_idem]

/-! ## Cart-operation helper lemmas -/

theorem cartTotal_foldl (items : List LineItem) : ∀ a : ℚ,
    items.foldl (fun sum it => sum + itemContribution it) a =
      a + (items.map itemContribution).sum := by
  induction items with
  | nil => intro a; simp
  | cons it rest ih =>
    intro a
    rw [List.foldl_cons, ih, List.map_cons, List.sum_cons]
    ring

theorem cartTotal_eq_sum (items : List LineItem) :
    cartTotal items = (items.map itemContribution).sum := by
  unfold cartTotal
  rw [cartTotal_foldl]
  ring

theorem cartCount_foldl (items : List LineItem) : ∀ a : ℤ,
    items.foldl (fun sum it => sum + it.quantity) a =
      a + (items.map (fun it => it.quantity)).sum := by
  induction items with
  | nil => intro a; simp
  | cons it rest ih =>
    intro a
    rw [List.foldl_cons, ih, List.map_cons, List.sum_cons]
    ring

theorem cartCount_eq_sum (items : List LineItem) :
    cartCount items = (items.map (fun it => it.quantity)).sum := by
  unfold cartCount
  rw [cartCount_foldl]
  ring

theorem incFirst_split (pre post : List LineItem) (it : LineItem) (pid : Str)
    (hpre : ∀ j ∈ pre, j.id ≠ pid) (hit : it.id = pid) :
    incFirst pid (pre ++ it :: post) =
      pre ++ { it with quantity := it.quantity + 1 } :: post := by
  induction pre with
  | nil =>
    simp only [List.nil_append]
    rw [incFirst, if_pos hit]
  | cons j rest ih =>
    simp only [List.cons_append]
    rw [incFirst, if_neg (hpre j (by simp))]
    rw [ih (fun k hk => hpre k (by simp [hk]))]

theorem setQtyFirst_split (pre post : List LineItem) (it : LineItem)
    (pid : Str) (q : ℤ)
    (hpre : ∀ j ∈ pre, j.id ≠ pid) (hit : it.id = pid) :
    setQtyFirst pid q (pre ++ it :: post) =
      pre ++ { it with quantity := q } :: post := by
  induction pre with
  | nil =>
    simp only [List.nil_append]
    rw [setQtyFirst, if_pos hit]
  | cons j rest ih =>
    simp only [List.cons_append]
    rw [setQtyFirst, if_neg (hpre j (by simp))]
    rw [ih (fun k hk => hpre k (by simp [hk]))]

theorem removeItem_of_absent {items : List LineItem} {pid : Str}
    (h : ∀ it ∈ items, it.id ≠ pid) : removeItem items pid = items := by
  unfold removeItem
  apply List.filter_eq_self.mpr
  intro it hit
  simp [h it hit]

theorem any_eq_false_of_absent {items : List LineItem} {pid : Str}
    (h : ∀ it ∈ items, it.id ≠ pid) :
    items.any (fun it => it.id = pid) = false := by
  simp only [List.any_eq_false, decide_eq_true_eq]
  exact h

theorem any_eq_true_of_mem {items : List LineItem} {it : LineItem} {pid : Str}
    (hmem : it ∈ items) (hid : it.id = pid) :
    items.any (fun it => it.id = pid) = true := by
  simp only [List.any_eq_true, decide_eq_true_eq]
  exact ⟨it, hmem, hid⟩

theorem removeItem_split (pre post : List LineItem) (it : LineItem) (pid : Str)
    (hpre : ∀ j ∈ pre, j.id ≠ pid) (hpost : ∀ j ∈ post, j.id ≠ pid)
    (hit : it.id = pid) :
    removeItem (pre ++ it :: post) pid = pre ++ post := by
  unfold removeItem
  rw [List.filter_append, List.filter_cons]
  rw [List.filter_eq_self.mpr (fun j hj => by simp [hpre j hj])]
  rw [List.filter_eq_self.mpr (fun j hj => by simp [hpost j hj])]
  simp [hit]

theorem jsTruthy_idem (p : Option ℚ) : jsTruthy (jsTruthy p) = jsTruthy p := by
  cases p with
  | none => rfl
  | some q =>
    show jsTruthy (if q = 0 then none else some q) =
      (if q = 0 then none else some q)
    split_ifs with h
    · rfl
    · show (if q = 0 then none else some q) = some q
      rw [if_neg h]

theorem nodup_split_ids {pre post : List LineItem} {it : LineItem}
    (h : ((pre ++ it :: post).map (fun j => j.id)).Nodup) :
    (∀ j ∈ pre, j.id ≠ it.id) ∧ (∀ j ∈ post, j.id ≠ it.id) := by
  rw [List.map_append, List.map_cons] at h
  rw [List.nodup_append] at h
  obtain ⟨h1, h2, h3⟩ := h
  constructor
  · intro j hj heq
    exact h3 (List.mem_map_of_mem _ hj) (by simp [heq])
  · intro j hj heq
    rw [List.nodup_cons] at h2
    exact h2.1 (by
      rw [← heq]
      exact List.mem_map_of_mem _ hj)

/-! ## Claim theorems -/

/-- C1: for every cart state and valid product input (non-empty id, name,
image), `addItem` with a product whose id matches an existing line item
increments that item's quantity by exactly 1 and appends no new entry
(regardless of any quantity field on the input, which `addItem` never
reads); with an unmatched id it appends a new item with quantity 1; adding
the same priced product twice to an empty cart yields exactly one item with
quantity 2 and total `2 × price`. -/
theorem addItem_merge_or_append (items : List LineItem) (p : ProductInput)
    (hid : p.id ≠ []) (hname : p.name ≠ []) (himg : p.image ≠ []) :
    ((∀ it ∈ items, it.id ≠ p.id) →
        addItem items p = items ++ [newItemOf p]) ∧
    (∀ pre it post, items = pre ++ it :: post →
        (∀ j ∈ pre, j.id ≠ p.id) → it.id = p.id →
        addItem items p =
          pre ++ { it with quantity := it.quantity + 1 } :: post ∧
        (addItem items p).length = items.length) ∧
    (addItem (addItem [] p) p = [{ newItemOf p with quantity := 2 }]) ∧
    (∀ c : ℚ, p.price = some c →
        cartTotal (addItem (addItem [] p) p) = 2 * c) := by
  have hguard : ¬(p.id = [] ∨ p.name = [] ∨ p.image = []) := by
    simp [hid, hname, himg]
  have habsent : ∀ q : List LineItem, (∀ it ∈ q, it.id ≠ p.id) →
      addItem q p = q ++ [newItemOf p] := by
    intro q hq
    unfold addItem
    rw [if_neg hguard, if_neg (by simp [any_eq_false_of_absent hq])]
  have hpresent : ∀ (q pre : List LineItem) (it : LineItem)
      (post : List LineItem), q = pre ++ it :: post →
      (∀ j ∈ pre, j.id ≠ p.id) → it.id = p.id →
      addItem q p =
        pre ++ { it with quantity := it.quantity + 1 } :: post := by
    intro q pre it post hsplit hpre hit
    unfold addItem
    rw [if_neg hguard,
      if_pos (by
        rw [hsplit]
        exact any_eq_true_of_mem (by simp) hit)]
    rw [hsplit]
    exact incFirst_split pre post it p.id hpre hit
  have hstep1 : addItem [] p = [newItemOf p] := by
    have h := habsent [] (by simp)
    simpa using h
  have hstep2 : addItem (addItem [] p) p =
      [{ newItemOf p with quantity := 2 }] := by
    rw [hstep1]
    rw [hpresent [newItemOf p] [] (newItemOf p) [] rfl (by simp) rfl]
    show ([] : List LineItem) ++ [{ newItemOf p with quantity := (1 : ℤ) + 1 }] =
      [{ newItemOf p with quantity := 2 }]
    rw [show (1 : ℤ) + 1 = 2 by norm_num]
    rfl
  refine ⟨habsent items, ?_, hstep2, ?_⟩
  · intro pre it post hsplit hpre hit
    refine ⟨hpresent items pre it post hsplit hpre hit, ?_⟩
    rw [hpresent items pre it post hsplit hpre hit, hsplit]
    simp
  · intro c hc
    rw [hstep2, cartTotal_eq_sum]
    have hcontrib : itemContribution { newItemOf p with quantity := 2 } =
        match jsTruthy p.price with
        | some pr => pr * 2
        | none => 0 := by
      show (match jsTruthy (jsTruthy p.price) with
        | some pr => pr * ((2 : ℤ) : ℚ)
        | none => 0) =
        match jsTruthy p.price with
        | some pr => pr * 2
        | none => 0
      rw [jsTruthy_idem]
      cases jsTruthy p.price with
      | none => rfl
      | some pr =>
        show pr * ((2 : ℤ) : ℚ) = pr * 2
        norm_num
    rw [List.map_cons, List.map_nil, List.sum_cons, List.sum_nil, hcontrib, hc]
    show (match (if c = 0 then none else some c : Option ℚ) with
      | some pr => pr * 2
      | none => 0) + 0 = 2 * c
    split_ifs with h0
    · show (0 : ℚ) + 0 = 2 * c
      rw [h0]
      ring
    · show c * 2 + 0 = 2 * c
      ring

/-- C1 witness: the theorem applied to the empty cart and the concrete
priced product `{id:"1", name:"A", price:100, image:"x"}`. -/
theorem addItem_merge_or_append_witness :
    addItem (addItem [] ⟨str "1", str "A", some 100, none, str "x"⟩)
        ⟨str "1", str "A", some 100, none, str "x"⟩ =
      [⟨str "1", str "A", some 100, 2, str "x"⟩] ∧
    cartTotal (addItem (addItem [] ⟨str "1", str "A", some 100, none, str "x"⟩)
        ⟨str "1", str "A", some 100, none, str "x"⟩) = 200 := by
  obtain ⟨h1, h2, h3, h4⟩ := addItem_merge_or_append []
    ⟨str "1", str "A", some 100, none, str "x"⟩
    (by decide) (by decide) (by decide)
  constructor
  · rw [h3]
    decide
  · rw [h4 100 rfl]
    norm_num

/-- A valid product input carrying a negative price; `addItem` accepts it
unchanged. -/
def negPriceProduct : ProductInput :=
  ⟨str "1", str "A", some (-5), none, str "x"⟩

/-- C2 counterexample: a cart state reachable through the mutation API
(adding a valid product whose price is −5 to the empty cart) whose derived
total is negative — so "total is always ≥ 0 in every reachable cart state"
is false as stated. -/
theorem cartTotal_reachable_negative :
    ReachableCart (addItem [] negPriceProduct) ∧
    cartTotal (addItem [] negPriceProduct) < 0 := by
  refine ⟨ReachableCart.add [] negPriceProduct ReachableCart.empty, ?_⟩
  have h : addItem [] negPriceProduct = [⟨str "1", str "A", some (-5), 1, str "x"⟩] := by
    unfold addItem negPriceProduct newItemOf normPrice jsTruthy
    norm_num
    decide
  rw [h]
  simp [cartTotal, itemContribution, jsTruthy]

/-- C2 (amended): in every cart state the derived `total` getter equals the
sum over the items of `price × quantity` for items with a (truthy) present
price and 0 for the rest; and `total ≥ 0` holds whenever every item has a
non-negative quantity and a non-negative present price — `addItem` does not
reject a negative input price, so the sign condition is a hypothesis rather
than an unconditional invariant. -/
theorem cartTotal_sum_and_nonneg (items : List LineItem) :
    cartTotal items = (items.map itemContribution).sum ∧
    ((∀ it ∈ items, 0 ≤ it.quantity ∧
        ∀ q : ℚ, jsTruthy it.price = some q → 0 ≤ q) →
      0 ≤ cartTotal items) := by
  refine ⟨cartTotal_eq_sum items, ?_⟩
  intro h
  rw [cartTotal_eq_sum]
  apply List.sum_nonneg
  intro x hx
  rw [List.mem_map] at hx
  obtain ⟨it, hit, hcontrib⟩ := hx
  rw [← hcontrib]
  unfold itemContribution
  obtain ⟨hq, hp⟩ := h it hit
  cases hjs : jsTruthy it.price with
  | none => simp
  | some q =>
    show (0 : ℚ) ≤ q * it.quantity
    have h1 := hp q hjs
    have h2 : (0 : ℚ) ≤ (it.quantity : ℚ) := by
      exact_mod_cast hq
    exact mul_nonneg h1 h2

/-- C2 witness: the amended theorem applied to a concrete two-item cart
with non-negative prices and quantities. -/
theorem cartTotal_sum_and_nonneg_witness :
    0 ≤ cartTotal [⟨str "1", str "A", some 5, 2, str "x"⟩,
      ⟨str "2", str "B", none, 1, str "y"⟩] := by
  have h := cartTotal_sum_and_nonneg [⟨str "1", str "A", some 5, 2, str "x"⟩,
    ⟨str "2", str "B", none, 1, str "y"⟩]
  exact h.2 (by decide)

/-- C3: `updateQuantity(id, currentQuantity, delta)` computes
`newQuantity = currentQuantity + delta`; when `newQuantity ≤ 0` it is
equivalent to `removeItem(id)` on the item list; otherwise it sets the
matching item's quantity to `newQuantity` and mutates nothing when no item
matches; for an item present at quantity `q` (ids distinct),
`updateQuantity(id, q, −q)` removes the item, decreasing the list length by
1 and `count` by `q`. -/
theorem updateQuantity_spec (items : List LineItem) (pid : Str)
    (cq d : ℤ) :
    (cq + d ≤ 0 → updateQuantity items pid cq d = removeItem items pid) ∧
    (0 < cq + d → (∀ it ∈ items, it.id ≠ pid) →
        updateQuantity items pid cq d = items) ∧
    (0 < cq + d → ∀ pre it post, items = pre ++ it :: post →
        (∀ j ∈ pre, j.id ≠ pid) → it.id = pid →
        updateQuantity items pid cq d =
          pre ++ { it with quantity := cq + d } :: post) ∧
    (∀ pre it post q, items = pre ++ it :: post →
        ((items.map (fun j => j.id)).Nodup) → it.id = pid →
        it.quantity = q →
        (updateQuantity items pid q (-q)).length + 1 = items.length ∧
        cartCount (updateQuantity items pid q (-q)) =
          cartCount items - q) := by
  refine ⟨?_, ?_, ?_, ?_⟩
  · intro hle
    unfold updateQuantity
    by_cases hany : items.any (fun it => it.id = pid) = true
    · rw [if_pos hany, if_pos hle]
    · rw [if_neg hany]
      rw [removeItem_of_absent]
      intro it hit
      by_contra heq
      rw [any_eq_true_of_mem hit (by simpa using heq)] at hany
      exact hany rfl
  · intro hgt habs
    unfold updateQuantity
    rw [if_neg (by simp [any_eq_false_of_absent habs])]
  · intro hgt pre it post hsplit hpre hit
    unfold updateQuantity
    rw [if_pos (by
        rw [hsplit]
        exact any_eq_true_of_mem (by simp) hit),
      if_neg (by omega)]
    rw [hsplit]
    exact setQtyFirst_split pre post it pid (cq + d) hpre hit
  · intro pre it post q hsplit hnodup hit hq
    have hzero : q + (-q) ≤ 0 := by omega
    rw [hsplit] at hnodup
    obtain ⟨hpre, hpost⟩ := nodup_split_ids hnodup
    rw [hit] at hpre hpost
    have hrem : updateQuantity items pid q (-q) = pre ++ post := by
      unfold updateQuantity
      rw [if_pos (by
          rw [hsplit]
          exact any_eq_true_of_mem (by simp) hit),
        if_pos hzero]
      rw [hsplit]
      exact removeItem_split pre post it pid hpre hpost hit
    constructor
    · rw [hrem, hsplit]
      simp
      omega
    · rw [hrem, hsplit, cartCount_eq_sum, cartCount_eq_sum]
      simp only [List.map_append, List.map_cons, List.sum_append,
        List.sum_cons]
      rw [hq]
      ring

/-- C3 witness: the theorem applied to a one-item cart at quantity 3:
`updateQuantity(id, 3, −3)` removes the item and drops `count` by 3, and
`updateQuantity` with a positive new quantity sets it. -/
theorem updateQuantity_spec_witness :
    (updateQuantity [⟨str "1", str "A", some 5, 3, str "x"⟩] (str "1")
        3 (-3)).length + 1 = 1 ∧
    cartCount (updateQuantity [⟨str "1", str "A", some 5, 3, str "x"⟩]
        (str "1") 3 (-3)) =
      cartCount [⟨str "1", str "A", some 5, 3, str "x"⟩] - 3 ∧
    updateQuantity [⟨str "1", str "A", some 5, 3, str "x"⟩] (str "1") 3 2 =
      [⟨str "1", str "A", some 5, 5, str "x"⟩] := by
  obtain ⟨h1, h2, h3, h4⟩ := updateQuantity_spec
    [⟨str "1", str "A", some 5, 3, str "x"⟩] (str "1") 3 2
  obtain ⟨hlen, hcount⟩ := h4 [] ⟨str "1", str "A", some 5, 3, str "x"⟩ [] 3
    rfl (by decide) rfl rfl
  refine ⟨hlen, hcount, ?_⟩
  rw [h3 (by norm_num) [] ⟨str "1", str "A", some 5, 3, str "x"⟩ [] rfl
    (by simp) rfl]
  decide

/-- C4: persistence round-trips — every mutation serializes the item list
under the fixed key `'cart'` (`updateCartStore`), and loading what was
saved restores exactly those items; a missing stored value leaves the
(initially empty) cart as is, a non-JSON stored value (e.g. the literal
string `"not json"`) yields an empty cart with the parse error caught
inside `loadCart` (which is a total function — no error propagates), and a
JSON value that is not an array is ignored. -/
theorem loadCart_persistence :
    (∀ (items cur : List LineItem),
        loadCart (some (updateCartStore items).2) cur = items) ∧
    (∀ items : List LineItem, (updateCartStore items).1 = cartStorageKey) ∧
    (∀ (t : Str) (cur : List LineItem),
        loadCart (some (.notJson t)) cur = []) ∧
    (∀ cur : List LineItem, loadCart none cur = cur) ∧
    (∀ cur : List LineItem, loadCart (some .jsonOther) cur = cur) := by
  refine ⟨fun items cur => rfl, fun items => rfl, fun t cur => rfl,
    fun cur => rfl, fun cur => rfl⟩

/-- A concrete filled-in customer used for the checkout counterexamples. -/
def sampleCustomer : CustomerInfo :=
  ⟨str "John Doe", str "john@example.com", true,
    ⟨str "123 Main St", str "Anytown", str "12345", str "US"⟩⟩

/-- C5 counterexample: the `submitOrder` entry point of `cart.js` performs
no empty-cart check — invoked on a cart with zero items it immediately runs
the clipboard side effect (the first emitted effect is the clipboard write)
and completes its success path (cart stays empty, success indicator shown)
instead of rejecting, so "every checkout entry point rejects an empty cart
before any clipboard side effect" is false as stated. -/
theorem submitOrder_empty_cart_not_rejected :
    (CartState.mk [] sampleCustomer).items = [] ∧
    ((submitOrder ⟨[], sampleCustomer⟩ (fun d => d) (str "t") true
        true).2.head?.map Effect.isClipboard) = some true ∧
    Effect.showSuccess ∈
      (submitOrder ⟨[], sampleCustomer⟩ (fun d => d) (str "t") true
        true).2 := by
  refine ⟨rfl, rfl, ?_⟩
  show Effect.showSuccess ∈
    (sendOrderEmail (orderDataOf ⟨[], sampleCustomer⟩ (str "t"))
        (fun d => d) true true).effects ++ [.showSuccess, .formReset]
  simp

/-- C5 (amended): the `handleFormSubmit` and `processCheckout` entry points
reject a zero-item checkout with only an alert, before any clipboard, mail
or state side effect; the `submitOrder` entry point performs no empty-cart
check and its first effect is the clipboard write even with zero items
(it is guarded only by UI-level disabling of the submit button). -/
theorem emptyCart_guard_per_entry_point :
    (∀ (cust : CustomerInfo) (enc : Str → Str) (clipOk : Bool),
        processCheckout ⟨[], cust⟩ enc clipOk =
          (⟨[], cust⟩, [.alertMsg emptyCartMsg])) ∧
    (∀ (cust : CustomerInfo) (fv : Bool) (enc : Str → Str) (clipOk : Bool),
        handleFormSubmit ⟨[], cust⟩ fv enc clipOk =
          (⟨[], cust⟩, [.alertMsg emptyCartMsg])) ∧
    (∀ (cust : CustomerInfo) (fmtDate : Str → Str) (ts : Str)
        (clipOk conf : Bool), ∃ body,
        (submitOrder ⟨[], cust⟩ fmtDate ts clipOk conf).2.head? =
          some (.clipboardAttempt body)) := by
  refine ⟨fun cust enc clipOk => rfl, fun cust fv enc clipOk => rfl,
    fun cust fmtDate ts clipOk conf => ⟨_, rfl⟩⟩

/-- C8: on dispatch success `submitOrder` clears the cart, resets the
customer info to its empty default, resets the form and shows the success
indicator; the rejection continuation leaves the state completely untouched
and surfaces the user-visible failure alert. -/
theorem submitOrder_success_failure (s : CartState) (fmtDate : Str → Str)
    (ts : Str) (clipOk conf : Bool) :
    (submitOrder s fmtDate ts clipOk conf).1.items = [] ∧
    (submitOrder s fmtDate ts clipOk conf).1.customerInfo =
      defaultCustomerInfo ∧
    Effect.formReset ∈ (submitOrder s fmtDate ts clipOk conf).2 ∧
    Effect.showSuccess ∈ (submitOrder s fmtDate ts clipOk conf).2 ∧
    (∀ es, submitOrderResolve s false es =
      (s, es ++ [.alertMsg submitFailMsg])) := by
  refine ⟨rfl, rfl, ?_, ?_, fun es => rfl⟩
  · show Effect.formReset ∈
      (sendOrderEmail (orderDataOf s ts) fmtDate clipOk conf).effects ++
        [.showSuccess, .formReset]
    simp
  · show Effect.showSuccess ∈
      (sendOrderEmail (orderDataOf s ts) fmtDate clipOk conf).effects ++
        [.showSuccess, .formReset]
    simp

/-- C10: the promise returned by `sendOrderEmail` always resolves (the model
is total once `formatOrderEmail` returns), for every clipboard outcome and
every answer to the confirmation prompt; the navigation to the `mailto:`
URI happens exactly when the user confirms; and the caller's success path
(cart cleared, customer info reset) runs even when the user declined. -/
theorem sendOrderEmail_always_resolves (o : OrderRecord)
    (fmtDate : Str → Str) (clipOk conf : Bool) :
    (sendOrderEmail o fmtDate clipOk conf).resolved = true ∧
    (Effect.navigateMailto (mailSubject o) (formatOrderEmail o fmtDate) ∈
        (sendOrderEmail o fmtDate clipOk conf).effects ↔ conf = true) ∧
    (∀ (s : CartState) (ts : Str),
        (submitOrder s fmtDate ts clipOk false).1.items = [] ∧
        (submitOrder s fmtDate ts clipOk false).1.customerInfo =
          defaultCustomerInfo) := by
  refine ⟨rfl, ?_, fun s ts => ⟨rfl, rfl⟩⟩
  show Effect.navigateMailto (mailSubject o) (formatOrderEmail o fmtDate) ∈
    Effect.clipboardAttempt (formatOrderEmail o fmtDate) ::
      Effect.confirmPrompt
        (if clipOk then confirmMsgCopied else confirmMsgFallback) ::
      (if conf then
        [Effect.navigateMailto (mailSubject o) (formatOrderEmail o fmtDate)]
      else []) ↔ conf = true
  cases conf
  · simp
  · simp

/-- C6: sanitization is idempotent — `sanitizeString` composed with itself
equals one application, and sanitizing an already-sanitized order record
yields a field-for-field identical record (for every record, in particular
every valid one). -/
theorem sanitization_idempotent :
    (∀ x : Str, sanitizeString (sanitizeString x) = sanitizeString x) ∧
    (∀ o : OrderRecord,
        sanitizeOrderData (sanitizeOrderData o) = sanitizeOrderData o) :=
  ⟨sanitizeString_idem, sanitizeOrderData_idem⟩

/-- The order record of the sanitization scenario: the customer name
carries HTML script markup. -/
def scriptOrder : OrderRecord :=
  ⟨[⟨str "prod-1", str "Test", none, 1, str "test.jpg"⟩],
    ⟨str "<script>John</script> Doe", str "john@example.com", true,
      ⟨str "123 Main St", str "Anytown", str "12345", str "US"⟩⟩,
    10, str "2024-01-15T10:30:00.000Z"⟩

/-- A concrete locale date rendering for the scenario runs. -/
def plainDate : Str → Str := fun _ => str "1/15/2024, 10:30:00 AM"

/-- C7 counterexample: the checkout pipeline of `cart.js`
(`ShoppingCart.sendOrderEmail`) applies no sanitization — with customer
name `"<script>John</script> Doe"` the `<script>` markup survives into the
percent-decoded subject of the `mailto:` URI the pipeline navigates to, so
the claim is false against the pipeline implemented in `cart.js`. -/
theorem cartjs_mailto_keeps_script :
    containsSubstr (mailSubject scriptOrder) (str "<script>") = true ∧
    Effect.navigateMailto (mailSubject scriptOrder)
        (formatOrderEmail scriptOrder plainDate) ∈
      (sendOrderEmail scriptOrder plainDate true true).effects := by
  refine ⟨by decide, ?_⟩
  show Effect.navigateMailto (mailSubject scriptOrder)
      (formatOrderEmail scriptOrder plainDate) ∈
    Effect.clipboardAttempt (formatOrderEmail scriptOrder plainDate) ::
      Effect.confirmPrompt confirmMsgCopied ::
      [Effect.navigateMailto (mailSubject scriptOrder)
        (formatOrderEmail scriptOrder plainDate)]
  simp

set_option maxRecDepth 40000 in
/-- C7 (amended): the sanitizing pipeline of `EmailService.sendOrderEmail`
(modelled from the spec; `emailService.js` is absent from src) sanitizes the
customer name `"<script>John</script> Doe"` to `"John Doe"`, and no
`<script>` substring survives into the percent-decoded subject or body of
the constructed `mailto:` URI. -/
theorem emailService_strips_script :
    (sanitizeOrderData scriptOrder).customer.name = str "John Doe" ∧
    containsSubstr (emailServiceMailParts scriptOrder plainDate).1
      (str "<script>") = false ∧
    containsSubstr (emailServiceMailParts scriptOrder plainDate).2
      (str "<script>") = false := by
  refine ⟨by decide, by decide, by decide⟩

/-- The order of the email-formatting scenario: one Bowl at €35, quantity
2, order total €70. -/
def bowlOrder : OrderRecord :=
  ⟨[⟨str "prod-1", str "Bowl", some 35, 2, str "bowl.jpg"⟩],
    sampleCustomer, 70, str "2024-01-15T10:30:00.000Z"⟩

/-- The fully rendered body of the scenario order. -/
def bowlBodyText : Str :=
  str "New Order Details:\n\nCustomer Information:\nName: John Doe\nEmail: john@example.com\n\nShipping Address:\nStreet: 123 Main St\nCity: Anytown\nPostal Code: 12345\nCountry: US\n\nOrder Items:\n1. Bowl\n   Quantity: 2\n   Price: €35.00\n   Total: €70.00\n\nOrder Total: €70.00\n\nOrder Date: 1/15/2024, 10:30:00 AM\n\nPlease process this order and contact the customer for payment and delivery arrangements.\n"

set_option maxRecDepth 40000 in
theorem bowl_item_line :
    formatItemLine 0 ⟨str "prod-1", str "Bowl", some 35, 2, str "bowl.jpg"⟩ =
      str "1. Bowl\n   Quantity: 2\n   Price: €35.00\n   Total: €70.00\n\n" := by
  show natToStr 1 ++ str ". " ++ str "Bowl" ++ str "\n   Quantity: " ++
      intToStr 2 ++ str "\n   Price: €" ++ toFixed2 35 ++
      str "\n   Total: €" ++ toFixed2 ((35 : ℚ) * ((2 : ℤ) : ℚ)) ++
      str "\n\n" = _
  rw [show (35 : ℚ) * ((2 : ℤ) : ℚ) = 70 by push_cast; norm_num]
  decide

set_option maxRecDepth 40000 in
theorem bowl_body : formatOrderEmail bowlOrder plainDate = bowlBodyText := by
  have hitems : formatItems bowlOrder.items =
      str "1. Bowl\n   Quantity: 2\n   Price: €35.00\n   Total: €70.00\n\n" := by
    show formatItemLine 0
        ⟨str "prod-1", str "Bowl", some 35, 2, str "bowl.jpg"⟩ ++ [] = _
    rw [bowl_item_line, List.append_nil]
  unfold formatOrderEmail
  rw [hitems]
  decide

set_option maxRecDepth 40000 in
/-- C9: `formatOrderEmail` renders, in order, the header, the customer name
and email, the shipping address lines, the numbered item listing (name,
quantity, unit price with exactly 2 decimals or `N/A`, computed line total
or `N/A`), the order total line and the locale-formatted date line; for the
order with item `{name:"Bowl", quantity:2, price:35.00}` and total `70.00`
the body contains `"Quantity: 2"`, `"€35.00"` and `"€70.00"`. -/
theorem formatOrderEmail_scenario :
    containsSubstr (formatOrderEmail bowlOrder plainDate)
      (str "Quantity: 2") = true ∧
    containsSubstr (formatOrderEmail bowlOrder plainDate)
      (str "€35.00") = true ∧
    containsSubstr (formatOrderEmail bowlOrder plainDate)
      (str "€70.00") = true ∧
    firstIdx (formatOrderEmail bowlOrder plainDate)
      (str "New Order Details:") = some 0 ∧
    firstIdx (formatOrderEmail bowlOrder plainDate)
      (str "Customer Information:") = some 20 ∧
    firstIdx (formatOrderEmail bowlOrder plainDate)
      (str "Shipping Address:") = some 82 ∧
    firstIdx (formatOrderEmail bowlOrder plainDate)
      (str "Order Items:") = some 166 ∧
    firstIdx (formatOrderEmail bowlOrder plainDate)
      (str "Order Total: €70.00") = some 237 ∧
    firstIdx (formatOrderEmail bowlOrder plainDate)
      (str "Order Date: ") = some 258 := by
  rw [bowl_body]
  refine ⟨by decide, by decide, by decide, by decide, by decide, by decide,
    by decide, by decide, by decide⟩
